import Mathlib

/-
  Shallow embedding of the `slim` change-impact tool (cmd/slim/main.go and the
  git wrapper gitAllDiffs).  Paths are the project-relative, slash-separated
  strings that git emits.  Filesystem directory listings and import-path
  resolution are modelled as oracles:
    fs      : String → Option (List String)   -- ReadDir: none = listing error
    resolve : String → Option String          -- build.Import + filepath.Rel:
                                              --   none = resolution error (fatal)
  Fatal exits via check(err)/os.Exit are modelled as Except.error ().
  The Go string primitives are re-implemented over List Char (paths are ASCII,
  so byte indexing and char indexing coincide) so that every definition
  evaluates by kernel reduction.
-/

/-- Go strings.HasPrefix(s, pre). -/
def strStartsWith (s pre : String) : Bool := List.isPrefixOf pre.data s.data

/-- Go strings.HasSuffix(s, suf). -/
def strEndsWith (s suf : String) : Bool := List.isSuffixOf suf.data s.data

/-- Go strings.TrimSpace. -/
def strTrim (s : String) : String :=
  String.mk (((s.data.dropWhile Char.isWhitespace).reverse.dropWhile Char.isWhitespace).reverse)

/-- Helper for Go strings.Contains: does the second list contain the first as a
contiguous sublist. -/
def containsSub (sub : List Char) : List Char → Bool
  | [] => sub.isEmpty
  | c :: rest => List.isPrefixOf sub (c :: rest) || containsSub sub rest

/-- Go strings.Contains(s, sub). -/
def goContains (s sub : String) : Bool := containsSub sub.data s.data

/-- Index of the first occurrence of `sub` (meaningful when contained). -/
def indexSub (sub : List Char) : List Char → Nat
  | [] => 0
  | c :: rest => if List.isPrefixOf sub (c :: rest) then 0 else indexSub sub rest + 1

/-- Go strings.Index(s, sub): first index of sub in s, or -1 when absent. -/
def goIndex (s sub : String) : Int :=
  if goContains s sub then (indexSub sub.data s.data : Int) else -1

/-- Go string slicing s[:n]. -/
def strTake (s : String) (n : Nat) : String := String.mk (s.data.take n)

/-- Go strings.ContainsAny(s, chars). -/
def goContainsAny (s chars : String) : Bool := s.data.any (fun c => chars.data.contains c)

/-- Byte-lexicographic order on char lists, as sort.Strings in Go compares
(ASCII strings). -/
def charListLe : List Char → List Char → Bool
  | [], _ => true
  | _ :: _, [] => false
  | c :: cs, d :: ds => if c < d then true else if d < c then false else charListLe cs ds

/-- Byte-lexicographic order on strings. -/
def strLe (a b : String) : Bool := charListLe a.data b.data

/-- The order used by sort.Strings, as a relation. -/
def strLeR (a b : String) : Prop := strLe a b = true

instance : DecidableRel strLeR := fun a b => instDecidableEqBool (strLe a b) true

/-- Go filepath.Separator on the target platform. -/
def sep : String := "/"

/-- testdataPattern1 from main.go: "testdata" + sep. -/
def testdataPattern1 : String := "testdata" ++ sep

/-- testdataPattern2 from main.go: sep + "testdata" + sep. -/
def testdataPattern2 : String := sep ++ "testdata" ++ sep

/-- Go filepath.Base for the clean relative slash-separated paths git produces:
the part after the final separator ("." for the empty path). -/
def filepathBase (p : String) : String :=
  if p = "" then "." else String.mk ((p.data.reverse.takeWhile (fun c => c != '/')).reverse)

/-- Go filepath.Dir for the clean relative slash-separated paths git produces:
everything before the final separator, or "." when there is none. -/
def filepathDir (p : String) : String :=
  let d := ((p.data.reverse.dropWhile (fun c => c != '/')).reverse).dropLast
  if d.isEmpty then "." else String.mk d

/-- The chain p, Dir(p), Dir(Dir(p)), ... up to (excluding) ".", as walked by the
fixture-bubbling loop in pathsImpacted.  The fuel argument bounds the number of
loop iterations; `length + 1` always suffices since Dir shortens its argument
or yields ".". -/
def walkUp : Nat → String → List String
  | 0, _ => []
  | n + 1, p => if p = "." then [] else p :: walkUp n (filepathDir p)

/-- hasTestFiles from main.go: list the directory (fatal on error via check) and
look for a name ending in "_test.go" whose first byte is neither '.' nor '_'. -/
def hasTestFiles (fs : String → Option (List String)) (path : String) : Except Unit Bool :=
  match fs path with
  | none => Except.error ()
  | some names =>
    Except.ok (names.any (fun n =>
      strEndsWith n "_test.go" && n.data.head? != some '.' && n.data.head? != some '_'))

/-- The body of the fixture-bubbling loop: visit each ancestor in order, consult
hasTestFiles (propagating its fatal error), and collect the ancestors that have
test files. -/
def walkFilter (fs : String → Option (List String)) : List String → Except Unit (Finset String)
  | [] => Except.ok ∅
  | d :: rest =>
    match hasTestFiles fs d with
    | Except.error e => Except.error e
    | Except.ok b =>
      match walkFilter fs rest with
      | Except.error e => Except.error e
      | Except.ok s => Except.ok (if b then insert d s else s)

/-- The per-file switch statement of pathsImpacted (main.go lines 146-178).
Returns the (impacted, altered) contribution of one changed path. -/
def classifyFile (fs : String → Option (List String)) (file : String) :
    Except Unit (Finset String × Finset String) :=
  if strStartsWith (filepathBase file) "." then Except.ok (∅, ∅)
  else if strStartsWith (filepathBase file) "_" then Except.ok (∅, ∅)
  else if strEndsWith (filepathBase file) "_test.go" then Except.ok ({filepathDir file}, ∅)
  else if strStartsWith (filepathDir file) testdataPattern1 then
    match hasTestFiles fs "." with
    | Except.error e => Except.error e
    | Except.ok b => Except.ok (if b then {"."} else ∅, ∅)
  else if goContains (filepathDir file) testdataPattern2 then
    match walkFilter fs (walkUp ((filepathDir file).length + 1)
        (strTake (filepathDir file) (goIndex (filepathDir file) testdataPattern2).toNat)) with
    | Except.error e => Except.error e
    | Except.ok s => Except.ok (s, ∅)
  else if strEndsWith (filepathBase file) ".go" then
    Except.ok ({filepathDir file}, {filepathDir file})
  else Except.ok (∅, ∅)

/-- The classification loop of pathsImpacted over a list of changed paths, with
the fatal error of the first failing file propagated. -/
def classifyList (fs : String → Option (List String)) :
    List String → Except Unit (Finset String × Finset String)
  | [] => Except.ok (∅, ∅)
  | f :: rest =>
    match classifyFile fs f with
    | Except.error e => Except.error e
    | Except.ok p =>
      match classifyList fs rest with
      | Except.error e => Except.error e
      | Except.ok q => Except.ok (p.1 ∪ q.1, p.2 ∪ q.2)

theorem charListLe_cons_iff {c d : Char} {cs ds : List Char} :
    charListLe (c :: cs) (d :: ds) = true ↔ c < d ∨ (c = d ∧ charListLe cs ds = true) := by
  simp only [charListLe]
  split_ifs with h₁ h₂
  · simp [h₁]
  · constructor
    · intro h; cases h
    · rintro (h | ⟨rfl, h⟩)
      · exact absurd h h₁
      · exact absurd h₂ (lt_irrefl _)
  · have hcd : c = d := le_antisymm (not_lt.mp h₂) (not_lt.mp h₁)
    subst hcd
    simp [h₁]

theorem charListLe_total : ∀ l₁ l₂ : List Char, charListLe l₁ l₂ = true ∨ charListLe l₂ l₁ = true
  | [], _ => Or.inl rfl
  | _ :: _, [] => Or.inr rfl
  | c :: cs, d :: ds => by
    rcases lt_trichotomy c d with h | h | h
    · exact Or.inl (charListLe_cons_iff.mpr (Or.inl h))
    · rcases charListLe_total cs ds with ih | ih
      · exact Or.inl (charListLe_cons_iff.mpr (Or.inr ⟨h, ih⟩))
      · exact Or.inr (charListLe_cons_iff.mpr (Or.inr ⟨h.symm, ih⟩))
    · exact Or.inr (charListLe_cons_iff.mpr (Or.inl h))

theorem charListLe_trans : ∀ l₁ l₂ l₃ : List Char,
    charListLe l₁ l₂ = true → charListLe l₂ l₃ = true → charListLe l₁ l₃ = true
  | [], _, _, _, _ => rfl
  | _ :: _, [], _, h₁, _ => by cases h₁
  | _ :: _, _ :: _, [], _, h₂ => by cases h₂
  | c :: cs, d :: ds, e :: es, h₁, h₂ => by
    rcases charListLe_cons_iff.mp h₁ with hcd | ⟨rfl, hr₁⟩ <;>
      rcases charListLe_cons_iff.mp h₂ with hde | ⟨heq, hr₂⟩
    · exact charListLe_cons_iff.mpr (Or.inl (lt_trans hcd hde))
    · exact charListLe_cons_iff.mpr (Or.inl (heq ▸ hcd))
    · exact charListLe_cons_iff.mpr (Or.inl hde)
    · exact charListLe_cons_iff.mpr (Or.inr ⟨heq, charListLe_trans cs ds es hr₁ hr₂⟩)

theorem charListLe_antisymm : ∀ l₁ l₂ : List Char,
    charListLe l₁ l₂ = true → charListLe l₂ l₁ = true → l₁ = l₂
  | [], [], _, _ => rfl
  | [], _ :: _, _, h₂ => by cases h₂
  | _ :: _, [], h₁, _ => by cases h₁
  | c :: cs, d :: ds, h₁, h₂ => by
    rcases charListLe_cons_iff.mp h₁ with hcd | ⟨rfl, hr₁⟩ <;>
      rcases charListLe_cons_iff.mp h₂ with hdc | ⟨heq, hr₂⟩
    · exact absurd hdc (lt_asymm hcd)
    · exact absurd (heq ▸ hcd) (lt_irrefl _)
    · exact absurd hdc (lt_irrefl _)
    · exact congrArg (c :: ·) (charListLe_antisymm cs ds hr₁ hr₂)

instance : IsTotal String strLeR := ⟨fun a b => charListLe_total a.data b.data⟩

instance : IsTrans String strLeR := ⟨fun _ _ _ h₁ h₂ => charListLe_trans _ _ _ h₁ h₂⟩

instance : IsAntisymm String strLeR :=
  ⟨fun a b h₁ h₂ => by
    cases a; cases b; exact congrArg String.mk (charListLe_antisymm _ _ h₁ h₂)⟩

/-- The elements of a set in sorted order (StringSet.SortedSlice from main.go, and
the iteration order our model fixes for set loops: the Go loop iterates a map
in unspecified order, and the loop results below do not depend on the order). -/
def SortedSlice (s : Finset String) : List String :=
  Quot.liftOn s.val (fun l => List.insertionSort strLeR l) (fun l₁ l₂ h =>
    List.eq_of_perm_of_sorted
      ((List.perm_insertionSort strLeR l₁).trans
        ((Quotient.exact (Quotient.sound h)).trans (List.perm_insertionSort strLeR l₂).symm))
      (List.sorted_insertionSort strLeR l₁) (List.sorted_insertionSort strLeR l₂))

/-- The classification pass over the changed-path set (iterated in sorted order). -/
def classifyAll (fs : String → Option (List String)) (diffs : Finset String) :
    Except Unit (Finset String × Finset String) :=
  classifyList fs (SortedSlice diffs)

/-- Package metadata as delivered by `go list -json` (go.go).  Dir is stored
project-relative, standing for the filepath.Rel(projectDir, pkg.Dir) the code
computes; Deps, TestImports and XTestImports are import paths whose transitive
closure go list has already taken. -/
structure Package where
  Dir : String
  Deps : List String
  TestImports : List String
  XTestImports : List String

/-- One dependency-list scan of pathsImpacted: resolve each import path (fatal
when resolution fails) and return the first resolved directory that is in the
altered set.  The code runs this over Deps, then TestImports, then
XTestImports; concatenating the three lists preserves order and semantics. -/
def findAlteredDep (resolve : String → Option String) (altered : Finset String) :
    List String → Except Unit (Option String)
  | [] => Except.ok none
  | dep :: rest =>
    match resolve dep with
    | none => Except.error ()
    | some depDir =>
      if depDir ∈ altered then Except.ok (some depDir) else findAlteredDep resolve altered rest

/-- The package loop of pathsImpacted (main.go lines 181-234).  Note: on a
dependency hit the code inserts the directory of the dependency
(depRelativePath), not the directory of the package itself. -/
def impactPass (resolve : String → Option String) (altered : Finset String) :
    List Package → Finset String → Except Unit (Finset String)
  | [], impacted => Except.ok impacted
  | pkg :: rest, impacted =>
    if pkg.Dir ∈ altered then impactPass resolve altered rest (insert pkg.Dir impacted)
    else
      match findAlteredDep resolve altered (pkg.Deps ++ pkg.TestImports ++ pkg.XTestImports) with
      | Except.error e => Except.error e
      | Except.ok (some depDir) => impactPass resolve altered rest (insert depDir impacted)
      | Except.ok none => impactPass resolve altered rest impacted

/-- pathsImpacted from main.go: classification pass then package pass. -/
def pathsImpacted (fs : String → Option (List String)) (resolve : String → Option String)
    (packages : List Package) (diffs : Finset String) : Except Unit (Finset String) :=
  match classifyAll fs diffs with
  | Except.error e => Except.error e
  | Except.ok p => impactPass resolve p.2 packages p.1

/-- Whether a directory both lists successfully and contains a name ending in
".go" (the keep-condition of removePathsWithoutBuildableGoFiles). -/
def hasGoFiles (fs : String → Option (List String)) (path : String) : Bool :=
  match fs path with
  | none => false
  | some names => names.any (fun n => strEndsWith n ".go")

/-- removePathsWithoutBuildableGoFiles from main.go: drop every path whose
listing fails (non-fatally) or contains no ".go" file.  Each iteration of the
Go loop deletes only the key under consideration, so the whole pass is a
filter. -/
def removePathsWithoutBuildableGoFiles (fs : String → Option (List String))
    (paths : Finset String) : Finset String :=
  paths.filter (fun p => hasGoFiles fs p = true)

/-- The output of main: pathsImpacted, pruned of non-buildable directories,
emitted in sorted order. -/
def slimOutput (fs : String → Option (List String)) (resolve : String → Option String)
    (packages : List Package) (diffs : Finset String) : Except Unit (List String) :=
  match pathsImpacted fs resolve packages diffs with
  | Except.error e => Except.error e
  | Except.ok impacted => Except.ok (SortedSlice (removePathsWithoutBuildableGoFiles fs impacted))

/-- gitAllDiffs from the git wrapper: trim the comparison, default it to HEAD,
take the diff list, and merge in untracked files unless the comparison contains
a space or '.'.  The two git invocations are oracles. -/
def gitAllDiffs (gitDiffO : String → Finset String) (untracked : Finset String)
    (commitComparison : String) : Finset String :=
  let cc := strTrim commitComparison
  let cc := if cc = "" then "HEAD" else cc
  let diffs := gitDiffO cc
  if goContainsAny cc " ." then diffs else diffs ∪ untracked

instance {ε α : Type} [DecidableEq ε] [DecidableEq α] : DecidableEq (Except ε α) := fun a b =>
  match a, b with
  | Except.error x, Except.error y =>
    match decEq x y with
    | isTrue h => isTrue (by rw [h])
    | isFalse h => isFalse (fun hh => h (by injection hh))
  | Except.ok x, Except.ok y =>
    match decEq x y with
    | isTrue h => isTrue (by rw [h])
    | isFalse h => isFalse (fun hh => h (by injection hh))
  | Except.error _, Except.ok _ => isFalse (fun hh => Except.noConfusion hh)
  | Except.ok _, Except.error _ => isFalse (fun hh => Except.noConfusion hh)

/-- A filesystem oracle on which every directory lists as empty. -/
def fsEmpty : String → Option (List String) := fun _ => some []

/-- A resolution oracle that fails on every import path (unused in runs whose
dependency lists are empty). -/
def resolveNone : String → Option String := fun _ => none

/-- Filesystem for the C1 run: every listing succeeds with a buildable file. -/
def fsC1 : String → Option (List String) := fun _ => some ["f.go"]

/-- Resolution for the C1 run: the single import path of pkgB resolves to the
directory pkgA. -/
def resolveC1 : String → Option String := fun d =>
  if d = "example.com/pkgA" then some "pkgA" else none

/-- The package whose (transitive) dependency list contains the import path of pkgA. -/
def pkgB : Package := ⟨"pkgB", ["example.com/pkgA"], [], []⟩

/-- Filesystem for the C2 run: pkgA contains a source file and a test file. -/
def fsC2 : String → Option (List String) := fun p =>
  if p = "pkgA" then some ["a.go", "a_test.go"] else some []

/-- The package for the C2 run. -/
def pkgA : Package := ⟨"pkgA", [], [], []⟩

/-- Filesystem for the C3 run: the project root contains a test file. -/
def fsC3 : String → Option (List String) := fun p =>
  if p = "." then some ["root_test.go", "main.go"] else some []

/-- Filesystem for the C4 counterexample: pkgB contains a test file. -/
def fsC4 : String → Option (List String) := fun p =>
  if p = "pkgB" then some ["b_test.go"] else some []

/-- A changed path that the test-file rule of the classifier matches, located in
directory D (claim-side predicate for C4). -/
def isTestFileIn (D f : String) : Bool :=
  !strStartsWith (filepathBase f) "." && !strStartsWith (filepathBase f) "_" &&
    strEndsWith (filepathBase f) "_test.go" && (filepathDir f == D)

/-- A changed path that matches none of the set-adding rules of the classifier
(ignored or irrelevant: hidden, underscore-prefixed, or a non-source file not
under a fixture directory). -/
def inertPath (f : String) : Bool :=
  strStartsWith (filepathBase f) "." || strStartsWith (filepathBase f) "_" ||
    (!strEndsWith (filepathBase f) "_test.go" &&
     !strStartsWith (filepathDir f) testdataPattern1 &&
     !goContains (filepathDir f) testdataPattern2 &&
     !strEndsWith (filepathBase f) ".go")

/-- Filesystem for the C7 witness: the directory "gone" fails to list. -/
def fsC7W : String → Option (List String) := fun p =>
  if p = "gone" then none else some ["f.go"]

/-- The diff oracle for the C8 witness. -/
def gdW : String → Finset String := fun _ => {"a.go"}

/-- A filesystem oracle on which every listing fails. -/
def fsNone : String → Option (List String) := fun _ => none

theorem mem_SortedSlice {a : String} {s : Finset String} : a ∈ SortedSlice s ↔ a ∈ s := by
  rcases s with ⟨val, nd⟩
  induction val using Quot.inductionOn with
  | h l =>
    show a ∈ List.insertionSort strLeR l ↔ _
    rw [(List.perm_insertionSort strLeR l).mem_iff]
    exact Iff.rfl

theorem SortedSlice_sorted (s : Finset String) : (SortedSlice s).Sorted strLeR := by
  rcases s with ⟨val, nd⟩
  induction val using Quot.inductionOn with
  | h l => exact List.sorted_insertionSort strLeR l

theorem SortedSlice_nodup (s : Finset String) : (SortedSlice s).Nodup := by
  rcases s with ⟨val, nd⟩
  induction val using Quot.inductionOn with
  | h l => exact ((List.perm_insertionSort strLeR l).nodup_iff).mpr nd

theorem classifyFile_altered_sub {fs : String → Option (List String)} {f : String}
    {p : Finset String × Finset String} (h : classifyFile fs f = Except.ok p) : p.2 ⊆ p.1 := by
  unfold classifyFile at h
  repeat' split at h
  all_goals first
    | exact Except.noConfusion h
    | (injection h with h; subst h; simp)

theorem classifyList_altered_sub {fs : String → Option (List String)} :
    ∀ {l : List String} {i a : Finset String},
      classifyList fs l = Except.ok (i, a) → a ⊆ i := by
  intro l
  induction l with
  | nil =>
    intro i a h
    injection h with h
    injection h with h₁ h₂
    subst h₁; subst h₂
    exact Finset.Subset.refl _
  | cons f rest ih =>
    intro i a h
    unfold classifyList at h
    split at h
    · exact Except.noConfusion h
    · rename_i p hp
      split at h
      · exact Except.noConfusion h
      · rename_i q hq
        injection h with h
        injection h with h₁ h₂
        subst h₁; subst h₂
        exact Finset.union_subset_union (classifyFile_altered_sub hp) (ih hq)

theorem impactPass_mono {resolve : String → Option String} {altered : Finset String} :
    ∀ {pkgs : List Package} {imp out : Finset String},
      impactPass resolve altered pkgs imp = Except.ok out → imp ⊆ out := by
  intro pkgs
  induction pkgs with
  | nil =>
    intro imp out h
    injection h with h
    subst h
    exact Finset.Subset.refl _
  | cons pkg rest ih =>
    intro imp out h
    unfold impactPass at h
    split at h
    · exact (Finset.subset_insert _ _).trans (ih h)
    · split at h
      · exact Except.noConfusion h
      · exact (Finset.subset_insert _ _).trans (ih h)
      · exact ih h

theorem findAlteredDep_empty {resolve : String → Option String} :
    ∀ {deps : List String} {od : Option String},
      findAlteredDep resolve (∅ : Finset String) deps = Except.ok od → od = none := by
  intro deps
  induction deps with
  | nil =>
    intro od h
    injection h with h
    exact h.symm
  | cons dep rest ih =>
    intro od h
    unfold findAlteredDep at h
    split at h
    · exact Except.noConfusion h
    · split at h
      · rename_i hmem
        exact absurd hmem (Finset.not_mem_empty _)
      · exact ih h

theorem impactPass_empty_altered {resolve : String → Option String} :
    ∀ {pkgs : List Package} {imp out : Finset String},
      impactPass resolve (∅ : Finset String) pkgs imp = Except.ok out → out = imp := by
  intro pkgs
  induction pkgs with
  | nil =>
    intro imp out h
    injection h with h
    exact h.symm
  | cons pkg rest ih =>
    intro imp out h
    unfold impactPass at h
    split at h
    · rename_i hmem
      exact absurd hmem (Finset.not_mem_empty _)
    · split at h
      · exact Except.noConfusion h
      · rename_i depDir hfind
        exact absurd (findAlteredDep_empty hfind) (by simp)
      · exact ih h

theorem hasGoFiles_iff {fs : String → Option (List String)} {p : String} :
    hasGoFiles fs p = true ↔
      ∃ names, fs p = some names ∧ names.any (fun n => strEndsWith n ".go") = true := by
  unfold hasGoFiles
  cases hfs : fs p with
  | none => simp
  | some names => simp

/-- C5: after the classification pass and the package (reachability) pass, and
before the buildability pruning, every directory in the altered set is also in
the impacted set: AlteredSet ⊆ ImpactedSet. -/
theorem c5_altered_subset_impacted (fs : String → Option (List String))
    (resolve : String → Option String) (pkgs : List Package) (diffs : Finset String)
    (i a out : Finset String) (hc : classifyAll fs diffs = Except.ok (i, a))
    (hp : impactPass resolve a pkgs i = Except.ok out) : a ⊆ out :=
  Finset.Subset.trans (classifyList_altered_sub hc) (impactPass_mono hp)

theorem c5_witness :
    classifyAll fsEmpty {"pkgA/f.go"} = Except.ok ({"pkgA"}, {"pkgA"}) ∧
    impactPass resolveNone ({"pkgA"} : Finset String) [] {"pkgA"} = Except.ok {"pkgA"} ∧
    ({"pkgA"} : Finset String) ⊆ {"pkgA"} :=
  ⟨by decide, by decide,
    c5_altered_subset_impacted fsEmpty resolveNone [] {"pkgA/f.go"} {"pkgA"} {"pkgA"} {"pkgA"}
      (by decide) (by decide)⟩

/-- C9: the final impacted directories are emitted as a deduplicated, sorted
sequence, and the computation is a deterministic function of the changed-path
set, the package list and the filesystem oracles: a second run on identical
input produces the identical list. -/
theorem c9_sorted_deduplicated_deterministic (fs : String → Option (List String))
    (resolve : String → Option String) (pkgs : List Package) (diffs : Finset String)
    (out : List String) (h : slimOutput fs resolve pkgs diffs = Except.ok out) :
    out.Sorted strLeR ∧ out.Nodup ∧
      (∀ out₂, slimOutput fs resolve pkgs diffs = Except.ok out₂ → out₂ = out) := by
  unfold slimOutput at h
  split at h
  · exact Except.noConfusion h
  · rename_i impacted himp
    injection h with h
    subst h
    refine ⟨SortedSlice_sorted _, SortedSlice_nodup _, ?_⟩
    intro out₂ h₂
    unfold slimOutput at h₂
    rw [himp] at h₂
    exact (Except.ok.inj h₂).symm

theorem c9_witness :
    slimOutput fsC1 resolveC1 [pkgB] {"pkgA/f.go"} = Except.ok ["pkgA"] ∧
    (["pkgA"] : List String).Sorted strLeR ∧ (["pkgA"] : List String).Nodup :=
  ⟨by decide,
    (c9_sorted_deduplicated_deterministic fsC1 resolveC1 [pkgB] {"pkgA/f.go"} ["pkgA"]
      (by decide)).1,
    (c9_sorted_deduplicated_deterministic fsC1 resolveC1 [pkgB] {"pkgA/f.go"} ["pkgA"]
      (by decide)).2.1⟩

/-- C7: every directory surviving into the final output was listable and its
listing contains a file ending in ".go"; a directory whose listing fails is
silently excluded from the output (the post-pass itself never aborts the run:
it is a total function of the oracle). -/
theorem c7_unbuildable_dirs_pruned (fs : String → Option (List String))
    (resolve : String → Option String) (pkgs : List Package) (diffs : Finset String)
    (out : List String) (h : slimOutput fs resolve pkgs diffs = Except.ok out) :
    (∀ p, p ∈ out → ∃ names, fs p = some names ∧ names.any (fun n => strEndsWith n ".go") = true) ∧
    (∀ p, fs p = none → p ∉ out) := by
  unfold slimOutput at h
  split at h
  · exact Except.noConfusion h
  · rename_i impacted himp
    injection h with h
    subst h
    constructor
    · intro p hp
      rw [mem_SortedSlice] at hp
      exact hasGoFiles_iff.mp (Finset.mem_filter.mp hp).2
    · intro p hfsp hp
      rw [mem_SortedSlice] at hp
      rcases hasGoFiles_iff.mp (Finset.mem_filter.mp hp).2 with ⟨names, heq, _⟩
      rw [hfsp] at heq
      exact Option.noConfusion heq

theorem c7_witness :
    slimOutput fsC7W resolveNone [] {"pkgA/f.go", "gone/g.go"} = Except.ok ["pkgA"] ∧
    fsC7W "gone" = none ∧ "gone" ∉ (["pkgA"] : List String) :=
  ⟨by decide, by decide,
    (c7_unbuildable_dirs_pruned fsC7W resolveNone [] {"pkgA/f.go", "gone/g.go"} ["pkgA"]
      (by decide)).2 "gone" (by decide)⟩

theorem classifyFile_testfile {fs : String → Option (List String)} {D f : String}
    (h : isTestFileIn D f = true) : classifyFile fs f = Except.ok ({D}, ∅) := by
  unfold isTestFileIn at h
  simp only [Bool.and_eq_true, Bool.not_eq_true', beq_iff_eq] at h
  obtain ⟨⟨⟨h1, h2⟩, h3⟩, h4⟩ := h
  simp [classifyFile, h1, h2, h3, h4]

theorem classifyFile_ignored {fs : String → Option (List String)} {f : String}
    (h : strStartsWith (filepathBase f) "." = true ∨ strStartsWith (filepathBase f) "_" = true) :
    classifyFile fs f = Except.ok (∅, ∅) := by
  rcases h with h | h
  · simp [classifyFile, h]
  · by_cases h0 : strStartsWith (filepathBase f) "." = true <;> simp [classifyFile, h0, h]

theorem classifyFile_inert {fs : String → Option (List String)} {f : String}
    (h : inertPath f = true) : classifyFile fs f = Except.ok (∅, ∅) := by
  unfold inertPath at h
  simp only [Bool.or_eq_true, Bool.and_eq_true, Bool.not_eq_true'] at h
  rcases h with (h | h) | ⟨⟨⟨n1, n2⟩, n3⟩, n4⟩
  · simp [classifyFile, h]
  · by_cases h0 : strStartsWith (filepathBase f) "." = true <;> simp [classifyFile, h0, h]
  · by_cases h0 : strStartsWith (filepathBase f) "." = true <;>
      by_cases h1 : strStartsWith (filepathBase f) "_" = true <;>
      simp [classifyFile, h0, h1, n1, n2, n3, n4]

theorem classifyList_testonly {fs : String → Option (List String)} {D : String} :
    ∀ {l : List String}, (∀ f ∈ l, isTestFileIn D f = true ∨ inertPath f = true) →
      ∀ {i a : Finset String}, classifyList fs l = Except.ok (i, a) → a = ∅ ∧ i ⊆ {D} := by
  intro l
  induction l with
  | nil =>
    intro _ i a h
    injection h with h
    injection h with h₁ h₂
    subst h₁; subst h₂
    exact ⟨rfl, Finset.empty_subset _⟩
  | cons f rest ih =>
    intro hall i a h
    unfold classifyList at h
    split at h
    · exact Except.noConfusion h
    · rename_i p hp
      split at h
      · exact Except.noConfusion h
      · rename_i q hq
        injection h with h
        injection h with h₁ h₂
        subst h₁; subst h₂
        obtain ⟨ha2, hi2⟩ := ih (fun g hg => hall g (List.mem_cons_of_mem f hg)) hq
        have hhead : p = ({D}, (∅ : Finset String)) ∨ p = ((∅ : Finset String), (∅ : Finset String)) := by
          rcases hall f (List.mem_cons_self f rest) with hc | hc
          · exact Or.inl (Except.ok.inj (hp.symm.trans (classifyFile_testfile hc)))
          · exact Or.inr (Except.ok.inj (hp.symm.trans (classifyFile_inert hc)))
        rcases hhead with rfl | rfl
        · exact ⟨by simp [ha2], Finset.union_subset (Finset.Subset.refl _) hi2⟩
        · exact ⟨by simp [ha2], Finset.union_subset (Finset.empty_subset _) hi2⟩

/-- C4 (amended): for a changed-path set in which every path is either a test
file in directory D or matches no set-adding rule at all, the classification
pass puts nothing into AlteredSet and nothing but D into ImpactedSet, and the
package pass (with the empty altered set) adds nothing: no dependency-based
propagation occurs from test-only changes. -/
theorem c4_testonly_no_propagation (fs : String → Option (List String))
    (resolve : String → Option String) (pkgs : List Package) (diffs : Finset String) (D : String)
    (hall : ∀ f ∈ diffs, isTestFileIn D f = true ∨ inertPath f = true) :
    (∀ i a, classifyAll fs diffs = Except.ok (i, a) → a = ∅ ∧ i ⊆ {D}) ∧
    (∀ out, pathsImpacted fs resolve pkgs diffs = Except.ok out → out ⊆ {D}) := by
  have hall' : ∀ f ∈ SortedSlice diffs, isTestFileIn D f = true ∨ inertPath f = true :=
    fun f hf => hall f (mem_SortedSlice.mp hf)
  constructor
  · intro i a h
    exact classifyList_testonly hall' h
  · intro out h
    unfold pathsImpacted at h
    split at h
    · exact Except.noConfusion h
    · rename_i p hp
      rcases p with ⟨i, a⟩
      obtain ⟨ha, hi⟩ := classifyList_testonly hall' hp
      subst ha
      rw [impactPass_empty_altered h]
      exact hi

theorem c4_counterexample :
    strEndsWith (filepathBase "pkgB/testdata/sub/x.txt") ".go" = false ∧
    isTestFileIn "d" "d/a_test.go" = true ∧
    pathsImpacted fsC4 resolveNone [] {"d/a_test.go", "pkgB/testdata/sub/x.txt"} =
      Except.ok {"d", "pkgB"} ∧
    "pkgB" ∈ ({"d", "pkgB"} : Finset String) ∧ "pkgB" ≠ "d" := by decide

theorem c4_witness :
    pathsImpacted fsEmpty resolveNone [] {"d/a_test.go", "d/b_test.go"} = Except.ok {"d"} ∧
    ({"d"} : Finset String) ⊆ {"d"} :=
  ⟨by decide,
    (c4_testonly_no_propagation fsEmpty resolveNone [] {"d/a_test.go", "d/b_test.go"} "d"
      (by decide)).2 {"d"} (by decide)⟩

theorem classifyList_ignored {fs : String → Option (List String)} :
    ∀ {l : List String},
      (∀ f ∈ l, strStartsWith (filepathBase f) "." = true ∨
        strStartsWith (filepathBase f) "_" = true) →
      classifyList fs l = Except.ok (∅, ∅) := by
  intro l
  induction l with
  | nil => intro _; rfl
  | cons f rest ih =>
    intro hall
    unfold classifyList
    rw [classifyFile_ignored (hall f (List.mem_cons_self f rest)),
      ih (fun g hg => hall g (List.mem_cons_of_mem f hg))]
    simp

/-- C6 (amended): a changed path whose basename starts with '.' or '_' is
classified as contributing nothing to AlteredSet or ImpactedSet, whatever its
extension; in particular a changed-path set consisting only of such paths
produces empty altered and impacted sets.  (Such a string can still enter the
sets as the parent directory of a different, non-ignored changed file, which is
what the unamended claim ruled out.) -/
theorem c6_hidden_underscore_ignored :
    (∀ (fs : String → Option (List String)) (f : String),
      strStartsWith (filepathBase f) "." = true ∨ strStartsWith (filepathBase f) "_" = true →
      classifyFile fs f = Except.ok (∅, ∅)) ∧
    (∀ (fs : String → Option (List String)) (diffs : Finset String),
      (∀ f ∈ diffs, strStartsWith (filepathBase f) "." = true ∨
        strStartsWith (filepathBase f) "_" = true) →
      classifyAll fs diffs = Except.ok (∅, ∅)) :=
  ⟨fun _ _ h => classifyFile_ignored h,
   fun _ diffs hall => classifyList_ignored (fun f hf => hall f (mem_SortedSlice.mp hf))⟩

theorem c6_counterexample :
    strStartsWith (filepathBase "a/.hidden") "." = true ∧
    classifyAll fsEmpty {"a/.hidden", "a/.hidden/x.go"} =
      Except.ok ({"a/.hidden"}, {"a/.hidden"}) ∧
    "a/.hidden" ∈ ({"a/.hidden"} : Finset String) := by decide

theorem c6_witness :
    classifyFile fsEmpty ".gitignore" = Except.ok (∅, ∅) ∧
    classifyAll fsEmpty {".gitignore", "pkg/_gen.go"} = Except.ok (∅, ∅) :=
  ⟨c6_hidden_underscore_ignored.1 fsEmpty ".gitignore" (by decide),
   c6_hidden_underscore_ignored.2 fsEmpty {".gitignore", "pkg/_gen.go"} (by decide)⟩

/-- C1 (evaluation at the failing input): the changed path "pkgA/f.go" alters
directory pkgA, and the dependency list of pkgB resolves to pkgA; the package
pass nevertheless re-inserts the directory of the dependency instead of pkgB,
so the
impacted set is exactly {"pkgA"} and the depending package pkgB is absent. -/
theorem c1_code_eval :
    resolveC1 "example.com/pkgA" = some "pkgA" ∧
    pathsImpacted fsC1 resolveC1 [pkgB] {"pkgA/f.go"} = Except.ok {"pkgA"} ∧
    "pkgB" ∉ ({"pkgA"} : Finset String) := by decide

/-- C2 (evaluation at the failing input): for the changed set
{"pkgA/testdata/fixture.json"} with pkgA containing a test file (and a
buildable source file), the final output is empty: the parent directory
"pkgA/testdata" neither starts with "testdata/" nor contains "/testdata/", so
the classifier ignores the fixture change entirely. -/
theorem c2_code_eval :
    hasTestFiles fsC2 "pkgA" = Except.ok true ∧
    hasGoFiles fsC2 "pkgA" = true ∧
    filepathDir "pkgA/testdata/fixture.json" = "pkgA/testdata" ∧
    strStartsWith "pkgA/testdata" testdataPattern1 = false ∧
    goContains "pkgA/testdata" testdataPattern2 = false ∧
    slimOutput fsC2 resolveNone [pkgA] {"pkgA/testdata/fixture.json"} = Except.ok [] := by decide

/-- C3 (evaluation at the failing input): the project root has test files, yet
the changed path "testdata/x.txt" leaves the impacted set empty: its directory
"testdata" does not start with "testdata/" (the pattern requires the trailing
separator), so the root-fixture rule does not fire.  For comparison, the
deeper path "testdata/sub/x.txt" does mark the root. -/
theorem c3_code_eval :
    hasTestFiles fsC3 "." = Except.ok true ∧
    filepathDir "testdata/x.txt" = "testdata" ∧
    strStartsWith "testdata" testdataPattern1 = false ∧
    pathsImpacted fsC3 resolveNone [] {"testdata/x.txt"} = Except.ok (∅ : Finset String) ∧
    pathsImpacted fsC3 resolveNone [] {"testdata/sub/x.txt"} = Except.ok ({"."} : Finset String)
    := by decide

/-- C8: gitAllDiffs merges the untracked files into its result exactly when the
trimmed comparison specifier is empty (it is then replaced by "HEAD") or is a
single-revision form containing neither a space nor a '.'; any specifier
containing a space or '.' is treated as an explicit range and the untracked
set is not merged. -/
theorem c8_untracked_inclusion (gd : String → Finset String) (ut : Finset String) (cc : String) :
    (strTrim cc = "" → gitAllDiffs gd ut cc = gd "HEAD" ∪ ut) ∧
    (strTrim cc ≠ "" → goContainsAny (strTrim cc) " ." = false →
      gitAllDiffs gd ut cc = gd (strTrim cc) ∪ ut) ∧
    (goContainsAny (strTrim cc) " ." = true → gitAllDiffs gd ut cc = gd (strTrim cc)) := by
  have hH : goContainsAny "HEAD" " ." = false := by decide
  refine ⟨?_, ?_, ?_⟩
  · intro he
    simp [gitAllDiffs, he, hH]
  · intro hne hfa
    simp [gitAllDiffs, hne, hfa]
  · intro ht
    by_cases he : strTrim cc = ""
    · rw [he] at ht
      exact absurd ht (by decide)
    · simp [gitAllDiffs, he, ht]

theorem c8_witness :
    strTrim "HEAD" ≠ "" ∧ goContainsAny (strTrim "HEAD") " ." = false ∧
    gitAllDiffs gdW {"u.txt"} "HEAD" = gdW (strTrim "HEAD") ∪ {"u.txt"} :=
  ⟨by decide, by decide,
    (c8_untracked_inclusion gdW {"u.txt"} "HEAD").2.1 (by decide) (by decide)⟩

theorem classifyList_error {fs : String → Option (List String)} :
    ∀ {l : List String} {f : String}, f ∈ l → classifyFile fs f = Except.error () →
      classifyList fs l = Except.error () := by
  intro l
  induction l with
  | nil => intro f hf _; cases hf
  | cons g rest ih =>
    intro f hf herr
    rcases List.mem_cons.mp hf with rfl | hf
    · unfold classifyList
      rw [herr]
    · unfold classifyList
      cases hg : classifyFile fs g with
      | error e => cases e; rfl
      | ok p => simp [ih hf herr]

theorem classifyFile_rootFixture_error {fs : String → Option (List String)} {f : String}
    (h1 : strStartsWith (filepathBase f) "." = false)
    (h2 : strStartsWith (filepathBase f) "_" = false)
    (h3 : strEndsWith (filepathBase f) "_test.go" = false)
    (h4 : strStartsWith (filepathDir f) testdataPattern1 = true)
    (hfs : fs "." = none) : classifyFile fs f = Except.error () := by
  have hht : hasTestFiles fs "." = Except.error () := by
    unfold hasTestFiles
    rw [hfs]
  simp [classifyFile, h1, h2, h3, h4, hht]

theorem classifyFile_nestedFixture_error {fs : String → Option (List String)} {f : String}
    (h1 : strStartsWith (filepathBase f) "." = false)
    (h2 : strStartsWith (filepathBase f) "_" = false)
    (h3 : strEndsWith (filepathBase f) "_test.go" = false)
    (h4 : strStartsWith (filepathDir f) testdataPattern1 = false)
    (h5 : goContains (filepathDir f) testdataPattern2 = true)
    (h6 : strTake (filepathDir f) (goIndex (filepathDir f) testdataPattern2).toNat ≠ ".")
    (hfs : fs (strTake (filepathDir f) (goIndex (filepathDir f) testdataPattern2).toNat) = none) :
    classifyFile fs f = Except.error () := by
  have hht : hasTestFiles fs
      (strTake (filepathDir f) (goIndex (filepathDir f) testdataPattern2).toNat) =
      Except.error () := by
    unfold hasTestFiles
    rw [hfs]
  have hwf : walkFilter fs (walkUp ((filepathDir f).length + 1)
      (strTake (filepathDir f) (goIndex (filepathDir f) testdataPattern2).toNat)) =
      Except.error () := by
    rw [walkUp]
    rw [if_neg h6]
    unfold walkFilter
    rw [hht]
  simp [classifyFile, h1, h2, h3, h4, h5, hwf]

/-- C10: a directory-listing failure is fatal when it happens inside the
classification-time test-file check (hasTestFiles propagates the error, and
the classification pass aborts for both the root-fixture rule and the nested
fixture-bubbling walk), whereas the same failure in the final buildability
post-pass is non-fatal: the directory is merely excluded from the result. -/
theorem c10_fixture_listing_fatal_vs_postpass :
    (∀ (fs : String → Option (List String)) (p : String), fs p = none →
      hasTestFiles fs p = Except.error ()) ∧
    (∀ (fs : String → Option (List String)) (diffs : Finset String) (f : String), f ∈ diffs →
      strStartsWith (filepathBase f) "." = false → strStartsWith (filepathBase f) "_" = false →
      strEndsWith (filepathBase f) "_test.go" = false →
      strStartsWith (filepathDir f) testdataPattern1 = true →
      fs "." = none → classifyAll fs diffs = Except.error ()) ∧
    (∀ (fs : String → Option (List String)) (f : String),
      strStartsWith (filepathBase f) "." = false → strStartsWith (filepathBase f) "_" = false →
      strEndsWith (filepathBase f) "_test.go" = false →
      strStartsWith (filepathDir f) testdataPattern1 = false →
      goContains (filepathDir f) testdataPattern2 = true →
      strTake (filepathDir f) (goIndex (filepathDir f) testdataPattern2).toNat ≠ "." →
      fs (strTake (filepathDir f) (goIndex (filepathDir f) testdataPattern2).toNat) = none →
      classifyFile fs f = Except.error ()) ∧
    (∀ (fs : String → Option (List String)) (paths : Finset String) (p : String), fs p = none →
      p ∉ removePathsWithoutBuildableGoFiles fs paths) := by
  refine ⟨?_, ?_, ?_, ?_⟩
  · intro fs p hfs
    unfold hasTestFiles
    rw [hfs]
  · intro fs diffs f hf h1 h2 h3 h4 hfs
    exact classifyList_error (mem_SortedSlice.mpr hf)
      (classifyFile_rootFixture_error h1 h2 h3 h4 hfs)
  · intro fs f h1 h2 h3 h4 h5 h6 hfs
    exact classifyFile_nestedFixture_error h1 h2 h3 h4 h5 h6 hfs
  · intro fs paths p hfs hp
    rcases hasGoFiles_iff.mp (Finset.mem_filter.mp hp).2 with ⟨names, heq, _⟩
    rw [hfs] at heq
    exact Option.noConfusion heq

theorem c10_witness :
    hasTestFiles fsNone "pkgA" = Except.error () ∧
    classifyAll fsNone {"testdata/sub/x.txt"} = Except.error () ∧
    classifyFile fsNone "a/testdata/sub/x.txt" = Except.error () ∧
    "pkgA" ∉ removePathsWithoutBuildableGoFiles fsNone {"pkgA"} :=
  ⟨c10_fixture_listing_fatal_vs_postpass.1 fsNone "pkgA" rfl,
   c10_fixture_listing_fatal_vs_postpass.2.1 fsNone {"testdata/sub/x.txt"} "testdata/sub/x.txt"
     (by decide) (by decide) (by decide) (by decide) (by decide) rfl,
   c10_fixture_listing_fatal_vs_postpass.2.2.1 fsNone "a/testdata/sub/x.txt"
     (by decide) (by decide) (by decide) (by decide) (by decide) (by decide) rfl,
   c10_fixture_listing_fatal_vs_postpass.2.2.2 fsNone {"pkgA"} "pkgA" rfl⟩
